import Mathlib

/-!
Verification of the EntraFlow workflow scheduler core.

This file gives a shallow embedding, in Lean 4, of the scheduler core of the
repository: `src/orchestrator/workflow.py` (step declarations, validation,
leveled topological sort), `src/agents/base_agent.py` (retry/validation
execution wrapper), `src/orchestrator/orchestrator.py` (workflow execution,
namespace propagation, critical-failure escalation, terminal-state handling)
and `src/orchestrator/state_manager.py` (run-state persistence).

Python dicts are embedded as insertion-ordered association lists with
in-place replacement on key collision; Python exceptions become
`Except String` values carrying the rendered exception message; wall-clock
data (timestamps, durations, backoff sleeps) is not modelled, since it does
not affect any of the data-flow properties proved here.
-/

namespace EntraFlow

/-! ## Python dictionaries as insertion-ordered association lists -/

/-- `d[k] = v` on a Python dict: replace in place if `k` is present,
else append at the end (insertion order preserved). -/
def dictSet {V : Type} (d : List (String × V)) (k : String) (v : V) :
    List (String × V) :=
  match d with
  | [] => [(k, v)]
  | (k', v') :: rest =>
      if k' = k then (k, v) :: rest else (k', v') :: dictSet rest k v

/-- `d.get(k)` / `d[k]` lookup on a Python dict. -/
def dictGet? {V : Type} (d : List (String × V)) (k : String) : Option V :=
  match d with
  | [] => none
  | (k', v') :: rest => if k' = k then some v' else dictGet? rest k

/-- `k in d` on a Python dict. -/
def dictMem {V : Type} (d : List (String × V)) (k : String) : Bool :=
  (dictGet? d k).isSome

/-! ## Workflow steps (`workflow.py`, class `WorkflowStep`)

The mutable `status` / `result` / `error` attributes of `WorkflowStep` are
never read by the scheduler (only the orchestrator's own `workflow_state`
is), so the embedding keeps the four declaration fields. -/

structure WorkflowStep where
  agent_name : String
  inputs : List String
  outputs : List String
  depends_on : List String
deriving Repr, DecidableEq

/-- Agent names of a step list, in declaration order. -/
def stepNames (steps : List WorkflowStep) : List String :=
  steps.map (·.agent_name)

/-! ## Validation (`WorkflowManager._validate_workflow`) -/

/-- First `(step.agent_name, dep)` pair, in declaration order, whose `dep`
is not a declared agent name (the unknown-dependency check). -/
def findUnknownDep (steps : List WorkflowStep) (agentSet : List String) :
    Option (String × String) :=
  match steps with
  | [] => none
  | s :: rest =>
      match s.depends_on.find? (fun d => !agentSet.contains d) with
      | some d => some (s.agent_name, d)
      | none => findUnknownDep rest agentSet

/-- The short-circuiting loop `for dep in step.depends_on: if
has_cycle(dep, path.copy()): return True`, threading the shared `visited`
set through the per-dependency calls `f`. -/
def cycleFold (f : String → List String → Bool × List String) :
    List String → List String → Bool × List String
  | [], vis => (false, vis)
  | d :: ds, vis =>
      match f d vis with
      | (true, vis') => (true, vis')
      | (false, vis') => cycleFold f ds vis'

/-- One recursive call of `has_cycle(agent_name, path)` with the shared
`visited` set threaded through; `path` is copied per branch in the source
(`path.copy()`), which the pure recursion reproduces by passing the extended
path down and never returning it.  Returns the cycle verdict and the updated
shared `visited`.  `fuel` bounds the recursion depth; each call strictly
grows `path`, so `visitedBound` fuel (see below) is never exhausted on the
inputs considered in this file. -/
def hasCycleAux (steps : List WorkflowStep) :
    Nat → String → List String → List String → Bool × List String
  | 0, _, _, visited => (false, visited)
  | fuel + 1, agent, path, visited =>
      if path.contains agent then (true, visited)
      else if visited.contains agent then (false, visited)
      else
        let visited := visited ++ [agent]
        let path := path ++ [agent]
        match steps.find? (fun s => s.agent_name = agent) with
        | none => (false, visited)
        | some step =>
            cycleFold (fun d vis => hasCycleAux steps fuel d path vis)
              step.depends_on visited

/-- Fuel that strictly dominates any possible `path` length: every agent
name plus every dependency name occurring in the step list. -/
def visitedBound (steps : List WorkflowStep) : Nat :=
  steps.length + (steps.map (·.depends_on.length)).sum + 1

/-- The top-level loop `for step in steps: if has_cycle(step.agent_name,
set()): raise`, with the shared `visited` threaded across iterations. -/
def anyCycle (steps : List WorkflowStep) : List WorkflowStep → List String → Bool
  | [], _ => false
  | s :: rest, visited =>
      match hasCycleAux steps (visitedBound steps) s.agent_name [] visited with
      | (true, _) => true
      | (false, visited') => anyCycle steps rest visited'

/-- `WorkflowManager._validate_workflow`: duplicate names, unknown
dependency targets, then the shared-visited cycle check, in source order;
the error value is the rendered `OrchestratorError` message. -/
def validateWorkflow (steps : List WorkflowStep) : Except String Unit :=
  let agent_names := stepNames steps
  if agent_names.length ≠ agent_names.dedup.length then
    .error "Duplicate agent names in workflow"
  else
    match findUnknownDep steps agent_names with
    | some (name, dep) =>
        .error ("Agent '" ++ name ++ "' depends on unknown agent '" ++ dep ++ "'")
    | none =>
        if anyCycle steps steps [] then
          .error "Circular dependency detected in workflow"
        else
          .ok ()

/-! ## Execution order (`WorkflowManager.get_execution_order`) -/

/-- `dependencies[agent]` built by the dict comprehension
`{step.agent_name: set(step.depends_on) for step in steps}`: the last
declaration with a given name wins, as in a Python dict comprehension. -/
def depsOf (steps : List WorkflowStep) (agent : String) : List String :=
  match (steps.filter (fun s => s.agent_name = agent)).getLast? with
  | some s => s.depends_on
  | none => []

/-- One pass of the ready-collection loop: agents not yet completed whose
dependencies are all completed, in declaration order. -/
def readyAgents (steps : List WorkflowStep) (completed : List String) :
    List String :=
  (steps.filter (fun s =>
    !completed.contains s.agent_name &&
      (depsOf steps s.agent_name).all (fun d => completed.contains d))).map
    (·.agent_name)

/-- Agents not yet completed, in declaration order (reported by the
circular-dependency error). -/
def remainingAgents (steps : List WorkflowStep) (completed : List String) :
    List String :=
  (steps.filter (fun s => !completed.contains s.agent_name)).map (·.agent_name)

/-- Rendered message of the run-time circular-dependency error, listing the
remaining agent names as Python's f-string renders the list. -/
def circularMsg (remaining : List String) : String :=
  "Circular dependency detected in workflow. Remaining agents: [" ++
    String.intercalate ", " (remaining.map (fun a => "'" ++ a ++ "'")) ++ "]"

/-- The `while len(completed) < len(steps)` loop of `get_execution_order`.
`completed` is a Python set, embedded as a duplicate-free list whose length
is the set's cardinality; `ready` is appended to the plan as the raw list
and deduplicated before joining `completed` (`completed.update(ready)`).
The fuel-exhaustion branch is unreachable for the fuel used below, since
every recursive call strictly grows `completed`. -/
def execOrderAux (steps : List WorkflowStep) :
    Nat → List String → List (List String) →
      Except String (List (List String))
  | fuel, completed, acc =>
      if steps.length ≤ completed.length then .ok acc
      else
        match fuel with
        | 0 => .error "internal: fuel exhausted"
        | fuel + 1 =>
            let ready := readyAgents steps completed
            if ready.isEmpty then
              .error (circularMsg (remainingAgents steps completed))
            else
              execOrderAux steps fuel (completed ++ ready.dedup) (acc ++ [ready])

/-- `WorkflowManager.get_execution_order` applied to a step list. -/
def getExecutionOrder (steps : List WorkflowStep) :
    Except String (List (List String)) :=
  execOrderAux steps (steps.length + 1) [] []

/-! ## Workflow registry (`WorkflowManager.register_workflow` / `get_workflow`) -/

/-- A step entry of a workflow configuration dictionary.  `agent` is the
mandatory `step_config["agent"]` key (a `KeyError` if missing); the other
keys fall back to `[]` via `.get`. -/
structure StepConfig where
  agent : Option String
  inputs : List String := []
  outputs : List String := []
  depends_on : List String := []

/-- A workflow configuration dictionary: `description` and `steps` keys. -/
structure WorkflowConfig where
  description : String := ""
  steps : List StepConfig := []

/-- `WorkflowManager._parse_workflow_config`: builds `WorkflowStep`s,
raising (`KeyError`) when a step lacks the `agent` key. -/
def parseWorkflowConfig (config : WorkflowConfig) :
    Except String (List WorkflowStep) :=
  config.steps.foldr
    (fun sc acc =>
      match sc.agent with
      | none => .error "KeyError: 'agent'"
      | some a =>
          match acc with
          | .error e => .error e
          | .ok rest =>
              .ok ({ agent_name := a, inputs := sc.inputs,
                     outputs := sc.outputs, depends_on := sc.depends_on } :: rest))
    (.ok [])

/-- A registered workflow: the raw config, parsed steps, and description. -/
structure Workflow where
  config : WorkflowConfig
  steps : List WorkflowStep
  description : String

/-- The manager's `self.workflows` dict. -/
def Registry : Type := List (String × Workflow)

/-- Rendered message of the `OrchestratorError` that wraps any registration
failure. -/
def registerFailMsg (name inner : String) : String :=
  "Failed to register workflow '" ++ name ++ "': " ++ inner

/-- `WorkflowManager.register_workflow`: parse, validate, then store; any
exception leaves `self.workflows` untouched, because the dict assignment is
the last action of the `try` block.  Returns the (possibly updated)
registry and the raised error, if any. -/
def registerWorkflow (wm : Registry) (name : String) (config : WorkflowConfig) :
    Registry × Option String :=
  match parseWorkflowConfig config with
  | .error e => (wm, some (registerFailMsg name e))
  | .ok steps =>
      match validateWorkflow steps with
      | .error e => (wm, some (registerFailMsg name e))
      | .ok _ =>
          (dictSet wm name
            { config := config, steps := steps,
              description := config.description }, none)

/-- `WorkflowManager.get_workflow`. -/
def getWorkflow (wm : Registry) (name : String) : Except String Workflow :=
  match dictGet? wm name with
  | none => .error ("Workflow '" ++ name ++ "' not found")
  | some w => .ok w

/-! ## Task execution wrapper (`agents/base_agent.py`, `BaseAgent.execute`)

The task body `_execute_impl` and the overridable validators are the
pluggable task contract; the embedding takes them as functions.  The body
is indexed by the attempt number so that attempt-dependent outcomes
("fails exactly N times then succeeds") are expressible; Python exception
objects become their `str(...)` renderings.  The `time.sleep` backoff and
the duration bookkeeping are wall-clock effects with no influence on the
returned data and are not modelled.  The number of invocations of the task
body is returned alongside the outcome as an observable trace count. -/

/-- Failures raised by `BaseAgent.execute`: the pre-loop `ValidationError`
(non-retryable) or the post-loop aggregated `AgentError`. -/
inductive AgentFailure where
  | validationError (msg : String)
  | agentError (msg : String)
deriving Repr, DecidableEq

/-- `str(ValidationError(name, msg))` per `utils/exceptions.py`. -/
def validationErrStr (name msg : String) : String :=
  "[" ++ name ++ "] Validation failed: " ++ msg

/-- `str(AgentError(name, msg))` per `utils/exceptions.py`. -/
def agentErrStr (name msg : String) : String :=
  "[" ++ name ++ "] " ++ msg

/-- The aggregated message built after the retry loop exhausts:
`"Execution failed after {retries + 1} attempts"`, with the last error
appended when one was recorded. -/
def exhaustMsg (retries : Nat) (lastError : Option String) : String :=
  "Execution failed after " ++ toString (retries + 1) ++ " attempts" ++
    (match lastError with
     | some e => ": " ++ e
     | none => "")

/-- The `for attempt in range(retries + 1)` loop of `BaseAgent.execute`,
by recursion on the number of attempts that remain (the loop enters with
`remaining = retries + 1` attempts at `attempt = 0`).  `body attempt` is
the outcome of `_execute_impl` on that attempt; `validateOut` is
`validate_output`.  Returns the loop's outcome (the result, or the final
aggregated error message) together with the number of body invocations
performed. -/
def retryLoop {V : Type} (body : Nat → Except String V)
    (validateOut : V → Except String Unit) (retries : Nat) :
    Nat → Nat → Option String → Except String V × Nat
  | 0, _, lastError => (.error (exhaustMsg retries lastError), 0)
  | remaining + 1, attempt, _ =>
      match body attempt with
      | .error e =>
          let (res, n) :=
            retryLoop body validateOut retries remaining (attempt + 1) (some e)
          (res, n + 1)
      | .ok result =>
          match validateOut result with
          | .ok _ => (.ok result, 1)
          | .error e =>
              let (res, n) :=
                retryLoop body validateOut retries remaining (attempt + 1) (some e)
              (res, n + 1)

/-- `BaseAgent.execute`: input validation first (failures wrapped in a
non-retryable `ValidationError` without running the body), then the retry
loop; loop exhaustion raises `AgentError(name, exhaustMsg)`.  The second
component counts invocations of the task body. -/
def baseExecute {I V : Type} (name : String)
    (validateIn : I → Except String Unit) (body : Nat → Except String V)
    (validateOut : V → Except String Unit) (inputs : I) (retries : Nat) :
    Except AgentFailure V × Nat :=
  match validateIn inputs with
  | .error e =>
      (.error (.validationError
        (validationErrStr name ("Input validation failed: " ++ e))), 0)
  | .ok _ =>
      match retryLoop body validateOut retries (retries + 1) 0 none with
      | (.ok result, n) => (.ok result, n)
      | (.error msg, n) => (.error (.agentError (agentErrStr name msg)), n)

/-- Attempt `i` of the retry loop fails with recorded error `e`: either the
task body raises, or the body returns a result that `validate_output`
rejects (both are caught by the loop's `except Exception` and retried). -/
def attemptFails {V : Type} (body : Nat → Except String V)
    (validateOut : V → Except String Unit) (i : Nat) (e : String) : Prop :=
  body i = .error e ∨ ∃ w, body i = .ok w ∧ validateOut w = .error e

/-! ## State persistence (`orchestrator/state_manager.py`)

The state directory is embedded as a dictionary from file name to the
serialized record; `json.dump`/`json.load` round-trip JSON-representable
data identically, so the record is stored structurally.  The `timestamp`
field is wall-clock data and is not modelled. -/

/-- The record `state_data` written by `StateManager.save_state`; `S` is
the saved state payload. -/
structure SavedRecord (S : Type) where
  workflow_name : String
  workflow_id : String
  state : S
deriving Repr, DecidableEq

/-- The state directory: file name -> stored record. -/
def StateDir (S : Type) : Type := List (String × SavedRecord S)

/-- `f"{workflow_name}_{workflow_id}.json"`. -/
def stateFileName (workflow_name workflow_id : String) : String :=
  workflow_name ++ "_" ++ workflow_id ++ ".json"

/-- `StateManager.save_state` with an explicit `workflow_id`: writes the
record and returns the updated directory together with the file path. -/
def saveState {S : Type} (dir : StateDir S) (workflow_name : String)
    (state : S) (workflow_id : String) : StateDir S × String :=
  let filename := stateFileName workflow_name workflow_id
  (dictSet dir filename
    { workflow_name := workflow_name, workflow_id := workflow_id,
      state := state },
   "data/outputs/state/" ++ filename)

/-- `StateManager.load_state` with an explicit `workflow_id`: reads the
file and returns `state_data.get("state", {})`; a missing file yields the
Python `{}` fallback, embedded as `none`. -/
def loadState {S : Type} (dir : StateDir S) (workflow_name : String)
    (workflow_id : String) : Option S :=
  match dictGet? dir (stateFileName workflow_name workflow_id) with
  | none => none
  | some record => some record.state

/-! ## Orchestrator (`orchestrator/orchestrator.py`, `execute_workflow`)

Agent result payloads are an opaque value type `V`.  An agent's behavior is
the outcome of `agent.execute(...)` on the gathered inputs: `BaseAgent`
raises only `AgentError` (or its subclass `ValidationError`), both caught
by the orchestrator's `except AgentError`, so a behavior is
`inputs -> Except String V` where `.error` carries the rendered exception
message.  `_handle_conditional_logic` inspects the `Analyzer` result for a
nested float sentiment score; float thresholding is outside the embedding,
so the branch label computed from a result is a parameter
`condBranch : V -> Option String` (`none` models the early `return` when no
sentiment is present).  Timestamps and durations are not modelled. -/

/-- An agent behavior: gathered inputs to outcome of `agent.execute`. -/
def AgentBehavior (V : Type) : Type := List (String × V) → Except String V

/-- The orchestrator's `self.agents` dict. -/
def AgentMap (V : Type) : Type := List (String × AgentBehavior V)

/-- `workflow_state` as maintained by `execute_workflow` (timestamps and
the `execution_time` float omitted). -/
structure RunState (V : Type) where
  outputs : List (String × V)
  status : String
  completed_agents : List String
  failed_agents : List String
  conditional_branch : Option String := none
  error : Option String := none
  state_file : Option String := none

/-- `Orchestrator._is_critical_agent`: a hard-coded name set. -/
def isCriticalAgent (agent_name : String) : Bool :=
  ["DataFetcher", "Analyzer"].contains agent_name

/-- `str(OrchestratorError(msg, workflow))` per `utils/exceptions.py`. -/
def orchErrStr (workflow msg : String) : String :=
  "[Orchestrator:" ++ workflow ++ "] " ++ msg

/-- `str(OrchestratorError(msg))` without a workflow tag. -/
def orchErrStrPlain (msg : String) : String :=
  "[Orchestrator] " ++ msg

/-- Input gathering in `_execute_agent`: each declared input key present in
the namespace is copied; absent keys are silently omitted. -/
def gatherInputs {V : Type} (available : List (String × V))
    (inputs : List String) : List (String × V) :=
  inputs.foldl
    (fun acc k =>
      match dictGet? available k with
      | some v => dictSet acc k v
      | none => acc) []

/-- Python's `str.lower()` on the character list of the string. -/
def pyLower (s : String) : String :=
  String.mk (s.data.map Char.toLower)

/-- The output write-back on success: one write per declared output key,
else a single write under the default key `agent_name.lower() + "_output"`. -/
def writeOutputs {V : Type} (outputs : List (String × V))
    (step : WorkflowStep) (result : V) : List (String × V) :=
  if step.outputs.isEmpty then
    dictSet outputs (pyLower step.agent_name ++ "_output") result
  else
    step.outputs.foldl (fun o k => dictSet o k result) outputs

/-- The keys a successful execution of `step` writes. -/
def stepWriteKeys (step : WorkflowStep) : List String :=
  if step.outputs.isEmpty then [pyLower step.agent_name ++ "_output"]
  else step.outputs

/-- The body of the inner `for agent_name in level_agents` loop: step
lookup, agent dispatch, input gathering, behavior invocation, output
write-back, bookkeeping, conditional tagging, critical escalation.
Returns the updated state and the pending exception, if one propagates
(missing step config and unknown agent raise `OrchestratorError`, which
`except AgentError` does not catch; a caught `AgentError` on a critical
agent re-raises as `OrchestratorError`). -/
def execStep {V : Type} (workflow_name : String) (agents : AgentMap V)
    (condBranch : V → Option String) (steps : List WorkflowStep)
    (st : RunState V) (agent_name : String) : RunState V × Option String :=
  match steps.find? (fun s => s.agent_name = agent_name) with
  | none =>
      (st, some (orchErrStrPlain
        ("Step configuration not found for agent: " ++ agent_name)))
  | some step =>
      match dictGet? agents agent_name with
      | none =>
          (st, some (orchErrStrPlain ("Unknown agent: " ++ agent_name)))
      | some behavior =>
          match behavior (gatherInputs st.outputs step.inputs) with
          | .ok result =>
              let st := { st with
                outputs := writeOutputs st.outputs step result,
                completed_agents := st.completed_agents ++ [agent_name] }
              let st :=
                if agent_name = "Analyzer" then
                  match condBranch result with
                  | none => st
                  | some label => { st with conditional_branch := some label }
                else st
              (st, none)
          | .error e =>
              let st := { st with
                failed_agents := st.failed_agents ++ [agent_name] }
              if isCriticalAgent agent_name then
                (st, some (orchErrStr workflow_name
                  ("Critical agent '" ++ agent_name ++ "' failed: " ++ e)))
              else
                (st, none)

/-- Sequential execution of the agents of one level, stopping at the first
propagating exception (the mutated state survives the raise). -/
def runLevel {V : Type} (workflow_name : String) (agents : AgentMap V)
    (condBranch : V → Option String) (steps : List WorkflowStep) :
    List String → RunState V → RunState V × Option String
  | [], st => (st, none)
  | a :: rest, st =>
      match execStep workflow_name agents condBranch steps st a with
      | (st', none) => runLevel workflow_name agents condBranch steps rest st'
      | (st', some e) => (st', some e)

/-- Sequential execution of all levels. -/
def runLevels {V : Type} (workflow_name : String) (agents : AgentMap V)
    (condBranch : V → Option String) (steps : List WorkflowStep) :
    List (List String) → RunState V → RunState V × Option String
  | [], st => (st, none)
  | level :: rest, st =>
      match runLevel workflow_name agents condBranch steps level st with
      | (st', none) => runLevels workflow_name agents condBranch steps rest st'
      | (st', some e) => (st', some e)

/-- The initial `workflow_state`, its `outputs` seeded from
`initial_inputs`. -/
def initialRunState {V : Type} (initial_inputs : List (String × V)) :
    RunState V :=
  { outputs := initial_inputs, status := "running",
    completed_agents := [], failed_agents := [] }

/-- The terminal state determined by the `try`/`except` of
`execute_workflow`, before any persistence is attempted: on normal
completion `status = "completed"`; on a propagating exception
`status = "failed"` and the rendered exception is recorded under `error`.
The pending exception (to be re-raised) is returned alongside. -/
def terminalState {V : Type} (workflow_name : String) (agents : AgentMap V)
    (condBranch : V → Option String) (steps : List WorkflowStep)
    (levels : List (List String)) (initial_inputs : List (String × V)) :
    RunState V × Option String :=
  match runLevels workflow_name agents condBranch steps levels
      (initialRunState initial_inputs) with
  | (st, none) => ({ st with status := "completed" }, none)
  | (st, some e) => ({ st with status := "failed", error := some e }, some e)

/-- `Orchestrator.execute_workflow` after plan resolution, parametrized by
the outcome `saveRes` of `StateManager.save_state` (`.ok` the file path,
`.error` the raised persistence exception).  In the failure branch the
state is saved (when `save_state` is set) and the pending exception
re-raised — but a raising save replaces it; in the success branch the save
is outside any `try`, so a raising save propagates instead of the completed
state being returned. -/
def executeWorkflowFromPlan {V : Type} (workflow_name : String)
    (agents : AgentMap V) (condBranch : V → Option String)
    (steps : List WorkflowStep) (levels : List (List String))
    (initial_inputs : List (String × V)) (save_state : Bool)
    (saveRes : Except String String) : Except String (RunState V) :=
  match terminalState workflow_name agents condBranch steps levels
      initial_inputs with
  | (_st, some e) =>
      if save_state then
        match saveRes with
        | .ok _ => .error e
        | .error e2 => .error e2
      else .error e
  | (st, none) =>
      if save_state then
        match saveRes with
        | .ok file => .ok { st with state_file := some file }
        | .error e2 => .error e2
      else .ok st

/-- `Orchestrator.execute_workflow`: resolve the workflow and its execution
order from the registry (failures propagate before any state exists), then
run the plan. -/
def executeWorkflow {V : Type} (wm : Registry) (agents : AgentMap V)
    (condBranch : V → Option String) (workflow_name : String)
    (initial_inputs : List (String × V)) (save_state : Bool)
    (saveRes : Except String String) : Except String (RunState V) :=
  match getWorkflow wm workflow_name with
  | .error e => .error (orchErrStr workflow_name e)
  | .ok workflow =>
      match getExecutionOrder workflow.steps with
      | .error e => .error (orchErrStr workflow_name e)
      | .ok levels =>
          executeWorkflowFromPlan workflow_name agents condBranch
            workflow.steps levels initial_inputs save_state saveRes

/-- A nonempty agent-name set every member of which has a dependency edge
back into the set; a finite dependency graph contains a cycle exactly when
such a set exists (every cycle is such a set, and conversely following the
in-set edges from any member must revisit a member). -/
def HasCycleSet (steps : List WorkflowStep) (c : List String) : Prop :=
  c ≠ [] ∧ ∀ a ∈ c, ∃ b ∈ c, ∃ s ∈ steps, s.agent_name = a ∧ b ∈ s.depends_on

/-- The keys written by the agent named `a` on success: the write keys of
the first step declaration carrying that name (the one `execute_workflow`
looks up), or none when no step carries it. -/
def writeKeysOf (steps : List WorkflowStep) (a : String) : List String :=
  match steps.find? (fun s => s.agent_name = a) with
  | some step => stepWriteKeys step
  | none => []

/-! ## Concrete instances used by witnesses and counterexamples -/

/-- The diamond dependency graph A→B, A→C, B→D, C→D, declared in the order
A, B, C, D. -/
def diamondSteps : List WorkflowStep :=
  [{ agent_name := "A", inputs := [], outputs := [], depends_on := [] },
   { agent_name := "B", inputs := [], outputs := [], depends_on := ["A"] },
   { agent_name := "C", inputs := [], outputs := [], depends_on := ["A"] },
   { agent_name := "D", inputs := [], outputs := [], depends_on := ["B", "C"] }]

/-- A rank function witnessing that the diamond graph is acyclic. -/
def diamondRank (a : String) : Nat :=
  if a = "A" then 0 else if a = "D" then 2 else 1

/-- The two-step cycle A→B→A. -/
def cycleSteps : List WorkflowStep :=
  [{ agent_name := "A", inputs := [], outputs := [], depends_on := ["B"] },
   { agent_name := "B", inputs := [], outputs := [], depends_on := ["A"] }]

/-- The configuration dictionary describing `cycleSteps`. -/
def cycleConfig : WorkflowConfig :=
  { steps := [{ agent := some "A", depends_on := ["B"] },
              { agent := some "B", depends_on := ["A"] }] }

/-- A configuration with a duplicate agent name (rejected by validation). -/
def dupConfig : WorkflowConfig :=
  { steps := [{ agent := some "Notifier" }, { agent := some "Notifier" }] }

/-- A well-formed one-step configuration. -/
def okConfig : WorkflowConfig :=
  { steps := [{ agent := some "Supervisor", outputs := ["k"] }] }

/-- Two chained steps that both declare the same output key `k`. -/
def overwriteSteps : List WorkflowStep :=
  [{ agent_name := "Supervisor", inputs := [], outputs := ["k"],
     depends_on := [] },
   { agent_name := "Notifier", inputs := [], outputs := ["k"],
     depends_on := ["Supervisor"] }]

/-- The configuration dictionary describing `overwriteSteps`. -/
def overwriteConfig : WorkflowConfig :=
  { steps := [{ agent := some "Supervisor", outputs := ["k"] },
              { agent := some "Notifier", outputs := ["k"],
                depends_on := ["Supervisor"] }] }

/-- Behaviors for `overwriteSteps`: the first step produces `1`, the second
produces `2`. -/
def overwriteAgents : AgentMap Nat :=
  [("Supervisor", fun _ => .ok 1), ("Notifier", fun _ => .ok 2)]

/-- Two chained steps with disjoint output keys (for the append-only
witness). -/
def appendOnlySteps : List WorkflowStep :=
  [{ agent_name := "Supervisor", inputs := [], outputs := ["x"],
     depends_on := [] },
   { agent_name := "Notifier", inputs := [], outputs := ["y"],
     depends_on := ["Supervisor"] }]

/-- Behaviors for `appendOnlySteps`. -/
def appendOnlyAgents : AgentMap Nat :=
  [("Supervisor", fun _ => .ok 1), ("Notifier", fun _ => .ok 2)]

/-- A critical agent (`DataFetcher`) followed by a dependent step. -/
def criticalSteps : List WorkflowStep :=
  [{ agent_name := "DataFetcher", inputs := [], outputs := ["a"],
     depends_on := [] },
   { agent_name := "Notifier", inputs := ["a"], outputs := [],
     depends_on := ["DataFetcher"] }]

/-- Behaviors where the critical `DataFetcher` has exhausted its retries
(its `execute` raised the aggregated `AgentError`); the dependent agent's
behavior is irrelevant and left as a parameter in the theorems. -/
def criticalFailBehavior : AgentBehavior Nat :=
  fun _ => .error "[DataFetcher] Execution failed after 4 attempts: boom"

/-- The same graph with the first agent non-critical (`Supervisor` is not
in `_is_critical_agent`'s hard-coded set). -/
def noncriticalSteps : List WorkflowStep :=
  [{ agent_name := "Supervisor", inputs := [], outputs := ["a"],
     depends_on := [] },
   { agent_name := "Notifier", inputs := ["a"], outputs := [],
     depends_on := ["Supervisor"] }]

/-- Behaviors where the non-critical `Supervisor` has exhausted its retries
and `Notifier` succeeds. -/
def noncriticalAgents : AgentMap Nat :=
  [("Supervisor", fun _ => .error "[Supervisor] Execution failed after 4 attempts: boom"),
   ("Notifier", fun _ => .ok 7)]

/-- A task body that fails on the first `n` attempts and then returns `42`. -/
def flakyBody (n : Nat) : Nat → Except String Nat :=
  fun attempt => if attempt < n then .error ("boom " ++ toString attempt) else .ok 42

/-- A task body that always returns its attempt number. -/
def countingBody : Nat → Except String Nat := fun attempt => .ok attempt

/-- An output validator that rejects values below `n` (so the body result
of attempt `i` passes validation exactly when `i ≥ n`). -/
def thresholdValidator (n : Nat) : Nat → Except String Unit :=
  fun v => if v < n then .error ("too small " ++ toString v) else .ok ()

/-! # Theorems -/

/-! ## Association-list (Python dict) lemmas -/

theorem dictGet?_dictSet {V : Type} (d : List (String × V)) (k k' : String)
    (v : V) :
    dictGet? (dictSet d k v) k' = if k' = k then some v else dictGet? d k' := by
  induction d with
  | nil =>
      by_cases h : k' = k
      · subst h; simp [dictSet, dictGet?]
      · have h' : ¬(k = k') := fun hh => h hh.symm
        simp [dictSet, dictGet?, h, h']
  | cons hd tl ih =>
      obtain ⟨k₀, v₀⟩ := hd
      by_cases h₀ : k₀ = k
      · subst h₀
        by_cases h₁ : k' = k₀
        · subst h₁; simp [dictSet, dictGet?]
        · have h₁' : ¬(k₀ = k') := fun hh => h₁ hh.symm
          simp [dictSet, dictGet?, h₁, h₁']
      · by_cases h₁ : k₀ = k'
        · subst h₁
          have h₀' : ¬(k₀ = k) := h₀
          simp [dictSet, dictGet?, h₀, h₀']
        · have h₁' : ¬(k' = k₀) := fun hh => h₁ hh.symm
          by_cases h₂ : k' = k
          · subst h₂; simp [dictSet, dictGet?, h₀, h₁, ih]
          · simp [dictSet, dictGet?, h₀, h₁, h₂, ih]

theorem dictGet?_dictSet_same {V : Type} (d : List (String × V))
    (k : String) (v : V) : dictGet? (dictSet d k v) k = some v := by
  simp [dictGet?_dictSet]

theorem dictGet?_dictSet_other {V : Type} (d : List (String × V))
    (k k' : String) (v : V) (h : k' ≠ k) :
    dictGet? (dictSet d k v) k' = dictGet? d k' := by
  simp [dictGet?_dictSet, h]

/-! ## C8: the diamond graph -/

/-- C8: the diamond dependency graph (A→B, A→C, B→D, C→D) passes
`_validate_workflow` (it is not falsely flagged as cyclic) and
`get_execution_order` computes exactly the levels `[[A], [B, C], [D]]`,
with the steps of each level in declaration order. -/
theorem diamond_accepted_and_leveled :
    validateWorkflow diamondSteps = .ok () ∧
    getExecutionOrder diamondSteps = .ok [["A"], ["B", "C"], ["D"]] := by
  exact ⟨by rfl, by rfl⟩

/-! ## C9: save/load round-trip -/

/-- C9: saving a run state under a workflow name and run id and loading it
back with the same workflow name and run id returns the saved state
unchanged, field for field, whatever the prior contents of the state
directory. -/
theorem saveState_loadState_roundtrip {S : Type} (dir : StateDir S)
    (workflow_name workflow_id : String) (state : S) :
    loadState (saveState dir workflow_name state workflow_id).1
      workflow_name workflow_id = some state := by
  simp [loadState, saveState, dictGet?_dictSet_same]

/-! ## C10: registration atomicity -/

/-- C10: whenever `register_workflow` raises (parse error, duplicate agent
name, unknown dependency target, or cycle), the workflow registry is left
exactly as it was, so every `get_workflow` lookup — of the name being
registered or of any other — answers as before the attempt. -/
theorem registerWorkflow_atomic (wm : Registry) (name : String)
    (config : WorkflowConfig) (e : String)
    (h : (registerWorkflow wm name config).2 = some e) :
    (registerWorkflow wm name config).1 = wm ∧
      ∀ m, getWorkflow (registerWorkflow wm name config).1 m =
        getWorkflow wm m := by
  unfold registerWorkflow at h ⊢
  cases hp : parseWorkflowConfig config with
  | error e' => simp [hp]
  | ok steps =>
      cases hv : validateWorkflow steps with
      | error e' => simp [hp, hv]
      | ok u => simp [hp, hv] at h

/-- Witness for C10: a duplicate-agent configuration is rejected and the
registry, already holding a previously registered workflow, is unchanged. -/
theorem registerWorkflow_atomic_witness :
    (registerWorkflow (registerWorkflow [] "prev" okConfig).1 "w" dupConfig).2 =
        some (registerFailMsg "w" "Duplicate agent names in workflow") ∧
      (registerWorkflow (registerWorkflow [] "prev" okConfig).1 "w" dupConfig).1 =
        (registerWorkflow [] "prev" okConfig).1 :=
  ⟨rfl,
    (registerWorkflow_atomic (registerWorkflow [] "prev" okConfig).1 "w"
      dupConfig (registerFailMsg "w" "Duplicate agent names in workflow")
      rfl).1⟩

/-! ## C2: persistence failure versus the run's outcome -/

/-- C2 counterexample: a run that reaches terminal status `completed`, but
whose final save raises, makes `execute_workflow` raise the persistence
error instead of returning the completed state: the persistence failure
becomes the reported result, masking the already-determined outcome.  The
workflow is registered end to end and its plan is the expected one. -/
theorem save_failure_masks_completed_run :
    (registerWorkflow [] "w" overwriteConfig).2 = none ∧
    getExecutionOrder overwriteSteps = .ok [["Supervisor"], ["Notifier"]] ∧
    (terminalState "w" overwriteAgents (fun _ => none) overwriteSteps
        [["Supervisor"], ["Notifier"]] []).1.status = "completed" ∧
    executeWorkflow (registerWorkflow [] "w" overwriteConfig).1 overwriteAgents
        (fun _ => none) "w" [] true (.error "No space left on device") =
      .error "No space left on device" := by
  exact ⟨by rfl, by rfl, by rfl, by rfl⟩

/-- C2 amended: the terminal status of a run is determined before the final
save and is always `completed` or `failed`; but when the final save raises,
`execute_workflow` propagates the persistence error as its own outcome — in
the success branch it raises instead of returning the completed state, and
in the failure branch the persistence error replaces the workflow error as
the raised exception.  The persistence failure thus never alters the
recorded terminal status, yet it does mask the reported result. -/
theorem save_failure_propagates {V : Type} (workflow_name : String)
    (agents : AgentMap V) (condBranch : V → Option String)
    (steps : List WorkflowStep) (levels : List (List String))
    (initial_inputs : List (String × V)) (e : String) :
    executeWorkflowFromPlan workflow_name agents condBranch steps levels
        initial_inputs true (.error e) = .error e ∧
      ((terminalState workflow_name agents condBranch steps levels
          initial_inputs).1.status = "completed" ∨
        (terminalState workflow_name agents condBranch steps levels
          initial_inputs).1.status = "failed") := by
  unfold executeWorkflowFromPlan terminalState
  cases h : runLevels workflow_name agents condBranch steps levels
      (initialRunState initial_inputs) with
  | mk st opt =>
      cases opt with
      | none => exact ⟨rfl, Or.inl rfl⟩
      | some err => exact ⟨rfl, Or.inr rfl⟩

/-! ## C1: the namespace is not append-only in general -/

/-- C1 counterexample: in a registered two-step workflow whose steps both
declare the output key `k`, the first step's completed write (`k ↦ 1`) is
replaced by the second step's write (`k ↦ 2`): the shared output namespace
is not append-only. -/
theorem namespace_overwrite_counterexample :
    (registerWorkflow [] "w" overwriteConfig).2 = none ∧
    (runLevels "w" overwriteAgents (fun _ => none) overwriteSteps
        [["Supervisor"]] (initialRunState [])).1.outputs = [("k", 1)] ∧
    executeWorkflow (registerWorkflow [] "w" overwriteConfig).1 overwriteAgents
        (fun _ => none) "w" [] true (.ok "f") =
      .ok { outputs := [("k", 2)], status := "completed",
            completed_agents := ["Supervisor", "Notifier"],
            failed_agents := [], conditional_branch := none,
            error := none, state_file := some "f" } ∧
    (1 : Nat) ≠ 2 := by
  exact ⟨by rfl, by rfl, by rfl, by decide⟩

/-! ## C4: critical-failure escalation and graceful degradation -/

/-- C4: for the workflow `[A (critical), B (depends_on := [A])]` where `A`
has exhausted its retries — with `A := DataFetcher`, a member of the
hard-coded critical set — the run's terminal status is `failed`, the
critical-failure exception is raised, `B` appears in neither the completed
nor the failed list, and `B` is never executed: the outcome is the same
whatever behavior `B` would have had.  With the same graph headed by the
non-critical `A := Supervisor`, the terminal status is `completed`, `A` is
in the failed list, and `B` still executes (it completes). -/
theorem critical_and_noncritical_failure :
    (∀ b : AgentBehavior Nat,
      terminalState "w" [("DataFetcher", criticalFailBehavior), ("Notifier", b)]
          (fun _ => none) criticalSteps [["DataFetcher"], ["Notifier"]] [] =
        ({ outputs := [], status := "failed", completed_agents := [],
           failed_agents := ["DataFetcher"], conditional_branch := none,
           error := some (orchErrStr "w"
             ("Critical agent 'DataFetcher' failed: " ++
              "[DataFetcher] Execution failed after 4 attempts: boom")),
           state_file := none },
         some (orchErrStr "w"
           ("Critical agent 'DataFetcher' failed: " ++
            "[DataFetcher] Execution failed after 4 attempts: boom")))) ∧
    getExecutionOrder criticalSteps = .ok [["DataFetcher"], ["Notifier"]] ∧
    (terminalState "w" noncriticalAgents (fun _ => none) noncriticalSteps
        [["Supervisor"], ["Notifier"]] []).1 =
      { outputs := [("notifier_output", 7)], status := "completed",
        completed_agents := ["Notifier"], failed_agents := ["Supervisor"],
        conditional_branch := none, error := none, state_file := none } ∧
    getExecutionOrder noncriticalSteps = .ok [["Supervisor"], ["Notifier"]] := by
  exact ⟨fun b => by rfl, by rfl, by rfl, by rfl⟩

/-! ## Retry-loop lemmas shared by C5 and C6 -/

/-- One loop step when the body raises: the recursive call's invocation
count is incremented. -/
theorem retryLoop_step_bodyError {V : Type} (body : Nat → Except String V)
    (validateOut : V → Except String Unit) (retries r attempt : Nat)
    (lastError : Option String) (e : String)
    (hb : body attempt = .error e) :
    retryLoop body validateOut retries (r + 1) attempt lastError =
      ((retryLoop body validateOut retries r (attempt + 1) (some e)).1,
        (retryLoop body validateOut retries r (attempt + 1) (some e)).2 + 1) := by
  simp [retryLoop, hb]

/-- One loop step when the body returns but the output fails validation:
identical to a body failure. -/
theorem retryLoop_step_valError {V : Type} (body : Nat → Except String V)
    (validateOut : V → Except String Unit) (retries r attempt : Nat)
    (lastError : Option String) (w : V) (e : String)
    (hb : body attempt = .ok w) (hv : validateOut w = .error e) :
    retryLoop body validateOut retries (r + 1) attempt lastError =
      ((retryLoop body validateOut retries r (attempt + 1) (some e)).1,
        (retryLoop body validateOut retries r (attempt + 1) (some e)).2 + 1) := by
  simp [retryLoop, hb, hv]

/-- One loop step when the body returns a validated result: the loop
returns it after this single invocation. -/
theorem retryLoop_step_ok {V : Type} (body : Nat → Except String V)
    (validateOut : V → Except String Unit) (retries r attempt : Nat)
    (lastError : Option String) (w : V)
    (hb : body attempt = .ok w) (hv : validateOut w = .ok ()) :
    retryLoop body validateOut retries (r + 1) attempt lastError =
      (.ok w, 1) := by
  simp [retryLoop, hb, hv]

/-- An `attemptFails` step rewrites like a body failure either way. -/
theorem retryLoop_step_fails {V : Type} (body : Nat → Except String V)
    (validateOut : V → Except String Unit) (retries r attempt : Nat)
    (lastError : Option String) (e : String)
    (h : attemptFails body validateOut attempt e) :
    retryLoop body validateOut retries (r + 1) attempt lastError =
      ((retryLoop body validateOut retries r (attempt + 1) (some e)).1,
        (retryLoop body validateOut retries r (attempt + 1) (some e)).2 + 1) := by
  rcases h with hb | ⟨w, hb, hv⟩
  · exact retryLoop_step_bodyError body validateOut retries r attempt
      lastError e hb
  · exact retryLoop_step_valError body validateOut retries r attempt
      lastError w e hb hv

/-- If every attempt the loop has left fails (body raise or output
validation), the loop returns the aggregated exhaustion message carrying
the last attempt's error, after performing exactly the remaining number of
body invocations. -/
theorem retryLoop_exhaust {V : Type} (body : Nat → Except String V)
    (validateOut : V → Except String Unit) (retries : Nat)
    (errs : Nat → String) :
    ∀ remaining attempt lastError, 1 ≤ remaining →
      (∀ j, j < remaining →
        attemptFails body validateOut (attempt + j) (errs (attempt + j))) →
      retryLoop body validateOut retries remaining attempt lastError =
        (.error (exhaustMsg retries (some (errs (attempt + remaining - 1)))),
          remaining) := by
  intro remaining
  induction remaining with
  | zero => intro attempt lastError h1; omega
  | succ r ih =>
      intro attempt lastError _ hfails
      have h0 := hfails 0 (by omega)
      simp only [Nat.add_zero] at h0
      rw [retryLoop_step_fails body validateOut retries r attempt lastError
        (errs attempt) h0]
      cases r with
      | zero =>
          simp [retryLoop]
      | succ r' =>
          have hrec :
              retryLoop body validateOut retries (r' + 1) (attempt + 1)
                  (some (errs attempt)) =
                (.error (exhaustMsg retries
                  (some (errs (attempt + 1 + (r' + 1) - 1)))), r' + 1) := by
            apply ih (attempt + 1) (some (errs attempt)) (by omega)
            intro j hj
            have := hfails (j + 1) (by omega)
            have harith : attempt + (j + 1) = attempt + 1 + j := by omega
            rwa [harith] at this
          have harith2 : attempt + 1 + (r' + 1) - 1 = attempt + (r' + 1 + 1) - 1 := by
            omega
          rw [hrec]
          simp only [harith2]

/-- If the first `d` attempts the loop makes fail (body raise or output
validation) and attempt `attempt + d` succeeds with a validated result,
the loop returns that result after exactly `d + 1` body invocations,
provided at least `d + 1` attempts remain. -/
theorem retryLoop_success {V : Type} (body : Nat → Except String V)
    (validateOut : V → Except String Unit) (retries : Nat)
    (errs : Nat → String) (v : V) :
    ∀ d attempt lastError remaining, d < remaining →
      (∀ j, j < d →
        attemptFails body validateOut (attempt + j) (errs (attempt + j))) →
      body (attempt + d) = .ok v → validateOut v = .ok () →
      retryLoop body validateOut retries remaining attempt lastError =
        (.ok v, d + 1) := by
  intro d
  induction d with
  | zero =>
      intro attempt lastError remaining hlt _ hbody hval
      cases remaining with
      | zero => omega
      | succ r =>
          simp only [Nat.add_zero] at hbody
          simp [retryLoop, hbody, hval]
  | succ d ih =>
      intro attempt lastError remaining hlt hfails hbody hval
      cases remaining with
      | zero => omega
      | succ r =>
          have h0 := hfails 0 (by omega)
          simp only [Nat.add_zero] at h0
          have hrec :
              retryLoop body validateOut retries r (attempt + 1)
                  (some (errs attempt)) = (.ok v, d + 1) := by
            apply ih (attempt + 1) (some (errs attempt)) r (by omega)
            · intro j hj
              have := hfails (j + 1) (by omega)
              have harith : attempt + (j + 1) = attempt + 1 + j := by omega
              rwa [harith] at this
            · have harith : attempt + (d + 1) = attempt + 1 + d := by omega
              rwa [harith] at hbody
            · exact hval
          rw [retryLoop_step_fails body validateOut retries r attempt
            lastError (errs attempt) h0, hrec]

/-! ## C5: the retry boundary -/

/-- C5: for a task body that fails on exactly the first `N` attempts and
then succeeds with a validated result, `execute` with `max_retries = N`
returns the result after `N + 1` body invocations, while `execute` with
`max_retries = N - 1` raises the aggregated `AgentError` — whose message
reports failure after exactly `N` attempts and wraps the last error —
after exactly `N` body invocations. -/
theorem execute_retry_boundary {I V : Type} (name : String)
    (validateIn : I → Except String Unit) (inputs : I)
    (body : Nat → Except String V) (validateOut : V → Except String Unit)
    (errs : Nat → String) (N : Nat) (v : V)
    (hIn : validateIn inputs = .ok ())
    (hfail : ∀ i, i < N → body i = .error (errs i))
    (hsucc : body N = .ok v) (hvout : validateOut v = .ok ()) (hN : 1 ≤ N) :
    baseExecute name validateIn body validateOut inputs N = (.ok v, N + 1) ∧
      baseExecute name validateIn body validateOut inputs (N - 1) =
        (.error (.agentError (agentErrStr name
          (exhaustMsg (N - 1) (some (errs (N - 1)))))), N) := by
  constructor
  · have hloop :
        retryLoop body validateOut N (N + 1) 0 none = (.ok v, N + 1) :=
      retryLoop_success body validateOut N errs v N 0 none (N + 1)
        (by omega) (fun j hj => Or.inl (by simpa using hfail j hj))
        (by simpa using hsucc) hvout
    simp [baseExecute, hIn, hloop]
  · have hrem : N - 1 + 1 = N := by omega
    have hloop :
        retryLoop body validateOut (N - 1) N 0 none =
          (.error (exhaustMsg (N - 1) (some (errs (N - 1)))), N) := by
      have := retryLoop_exhaust body validateOut (N - 1) errs N 0 none
        (by omega) (fun j hj => Or.inl (by simpa using hfail j hj))
      simpa using this
    simp [baseExecute, hIn, hrem, hloop]

/-- Witness for C5 at `N = 2`: the body fails on attempts 0 and 1 and
returns 42 on attempt 2. -/
theorem execute_retry_boundary_witness :
    baseExecute "X" (fun (_ : List (String × Nat)) => .ok ()) (flakyBody 2)
        (fun _ => .ok ()) [] 2 = (.ok 42, 3) ∧
      baseExecute "X" (fun (_ : List (String × Nat)) => .ok ()) (flakyBody 2)
        (fun _ => .ok ()) [] 1 =
        (.error (.agentError (agentErrStr "X"
          (exhaustMsg 1 (some ("boom " ++ toString 1))))), 2) :=
  execute_retry_boundary "X" (fun _ => .ok ()) [] (flakyBody 2)
    (fun _ => .ok ()) (fun i => "boom " ++ toString i) 2 42 rfl
    (by
      intro i hi
      match i, hi with
      | 0, _ => rfl
      | 1, _ => rfl)
    rfl rfl (by omega)

/-! ## C6: validation failures -/

/-- C6: an input mapping rejected by `validate_input` makes `execute` raise
the non-retryable `ValidationError` immediately, with zero invocations of
the task body; whereas a result rejected by `validate_output` is treated
exactly like a body failure: with results failing validation on the first
`N` attempts and passing on attempt `N`, `execute` with `max_retries = N`
succeeds after `N + 1` body invocations and `execute` with
`max_retries = N - 1` raises the aggregated failure after exactly `N`
body invocations. -/
theorem validation_failure_handling {I V : Type} (name : String)
    (validateInBad : I → Except String Unit) (inputsBad : I) (eIn : String)
    (bodyB : Nat → Except String V) (validateOutB : V → Except String Unit)
    (retriesB : Nat)
    (hBad : validateInBad inputsBad = .error eIn)
    (validateIn : I → Except String Unit) (inputs : I)
    (body : Nat → Except String V) (validateOut : V → Except String Unit)
    (w : Nat → V) (errs : Nat → String) (N : Nat) (v : V)
    (hIn : validateIn inputs = .ok ())
    (hvf : ∀ i, i < N →
      body i = .ok (w i) ∧ validateOut (w i) = .error (errs i))
    (hsucc : body N = .ok v) (hvout : validateOut v = .ok ()) (hN : 1 ≤ N) :
    baseExecute name validateInBad bodyB validateOutB inputsBad retriesB =
        (.error (.validationError (validationErrStr name
          ("Input validation failed: " ++ eIn))), 0) ∧
      baseExecute name validateIn body validateOut inputs N =
        (.ok v, N + 1) ∧
      baseExecute name validateIn body validateOut inputs (N - 1) =
        (.error (.agentError (agentErrStr name
          (exhaustMsg (N - 1) (some (errs (N - 1)))))), N) := by
  refine ⟨by simp [baseExecute, hBad], ?_, ?_⟩
  · have hloop :
        retryLoop body validateOut N (N + 1) 0 none = (.ok v, N + 1) :=
      retryLoop_success body validateOut N errs v N 0 none (N + 1)
        (by omega)
        (fun j hj => Or.inr ⟨w j, by simpa using (hvf j hj).1,
          by simpa using (hvf j hj).2⟩)
        (by simpa using hsucc) hvout
    simp [baseExecute, hIn, hloop]
  · have hrem : N - 1 + 1 = N := by omega
    have hloop :
        retryLoop body validateOut (N - 1) N 0 none =
          (.error (exhaustMsg (N - 1) (some (errs (N - 1)))), N) := by
      have := retryLoop_exhaust body validateOut (N - 1) errs N 0 none
        (by omega)
        (fun j hj => Or.inr ⟨w j, by simpa using (hvf j hj).1,
          by simpa using (hvf j hj).2⟩)
      simpa using this
    simp [baseExecute, hIn, hrem, hloop]

/-- Witness for C6: a failing input validator is rejected with zero body
invocations, and an output validator rejecting results below 2 over the
body returning its attempt number reproduces the C5 retry boundary at
`N = 2`. -/
theorem validation_failure_handling_witness :
    baseExecute "X" (fun (_ : List (String × Nat)) => .error "bad shape")
        countingBody (thresholdValidator 2) [] 3 =
        (.error (.validationError (validationErrStr "X"
          ("Input validation failed: " ++ "bad shape"))), 0) ∧
      baseExecute "X" (fun (_ : List (String × Nat)) => .ok ()) countingBody
        (thresholdValidator 2) [] 2 = (.ok 2, 3) ∧
      baseExecute "X" (fun (_ : List (String × Nat)) => .ok ()) countingBody
        (thresholdValidator 2) [] 1 =
        (.error (.agentError (agentErrStr "X"
          (exhaustMsg 1 (some ("too small " ++ toString 1))))), 2) :=
  validation_failure_handling "X"
    (fun _ => .error "bad shape") [] "bad shape" countingBody
    (thresholdValidator 2) 3 rfl
    (fun _ => .ok ()) [] countingBody (thresholdValidator 2)
    (fun i => i) (fun i => "too small " ++ toString i) 2 2 rfl
    (by
      intro i hi
      match i, hi with
      | 0, _ => exact ⟨rfl, rfl⟩
      | 1, _ => exact ⟨rfl, rfl⟩)
    rfl rfl (by omega)

/-! ## Execution-order lemmas (toward C7 and C3) -/

/-- With duplicate-free agent names, the dependency dict agrees with each
step's own declaration. -/
theorem list_contains_true (l : List String) (a : String) :
    l.contains a = true ↔ a ∈ l := List.elem_iff

theorem list_contains_false (l : List String) (a : String) :
    l.contains a = false ↔ a ∉ l := by
  rw [← list_contains_true l a]
  cases h : l.contains a <;> simp

theorem depsOf_eq_of_nodup (steps : List WorkflowStep) (s : WorkflowStep)
    (hnodup : (stepNames steps).Nodup) (hs : s ∈ steps) :
    depsOf steps s.agent_name = s.depends_on := by
  induction steps with
  | nil => cases hs
  | cons t ts ih =>
      simp only [stepNames, List.map_cons, List.nodup_cons, List.mem_map]
        at hnodup
      obtain ⟨hnmem, hnd⟩ := hnodup
      rcases List.mem_cons.mp hs with heq | hs
      · subst heq
        have hfilter :
            ts.filter (fun x => x.agent_name = s.agent_name) = [] := by
          apply List.filter_eq_nil_iff.mpr
          intro x hx
          simp only [decide_eq_true_eq]
          intro hEq
          exact hnmem ⟨x, hx, hEq⟩
        simp [depsOf, List.filter_cons, hfilter]
      · have hne : ¬(t.agent_name = s.agent_name) := by
          intro hEq
          exact hnmem ⟨s, hs, hEq.symm⟩
        have := ih hnd hs
        simpa [depsOf, List.filter_cons, hne] using this

/-- Membership in one ready pass: a step with that name exists, it is not
completed, and its dict dependencies are all completed. -/
theorem mem_readyAgents (steps : List WorkflowStep) (completed : List String)
    (a : String) :
    a ∈ readyAgents steps completed ↔
      ∃ s, s ∈ steps ∧ s.agent_name = a ∧ a ∉ completed ∧
        ∀ d ∈ depsOf steps a, d ∈ completed := by
  simp only [readyAgents, List.mem_map, List.mem_filter, Bool.and_eq_true,
    Bool.not_eq_true', List.all_eq_true]
  constructor
  · rintro ⟨s, ⟨hs, hnc, hdeps⟩, rfl⟩
    refine ⟨s, hs, rfl, (list_contains_false _ _).mp hnc, ?_⟩
    intro d hd
    exact (list_contains_true _ _).mp (hdeps d hd)
  · rintro ⟨s, hs, rfl, hnc, hdeps⟩
    refine ⟨s, ⟨hs, (list_contains_false _ _).mpr hnc, ?_⟩, rfl⟩
    intro d hd
    exact (list_contains_true _ _).mpr (hdeps d hd)

/-- The ready list of a pass has no duplicates when agent names are
duplicate-free. -/
theorem readyAgents_nodup (steps : List WorkflowStep) (completed : List String)
    (hnodup : (stepNames steps).Nodup) :
    (readyAgents steps completed).Nodup := by
  unfold readyAgents stepNames at *
  exact hnodup.sublist (List.Sublist.map _ (List.filter_sublist steps))

/-- Every name of a ready pass is a declared agent name. -/
theorem readyAgents_subset (steps : List WorkflowStep)
    (completed : List String) :
    ∀ a ∈ readyAgents steps completed, a ∈ stepNames steps := by
  unfold readyAgents stepNames
  exact (List.Sublist.map _ (List.filter_sublist steps)).subset

/-- A duplicate-free list is no longer than any list containing it. -/
theorem nodup_length_le (l₁ l₂ : List String) (h : l₁.Nodup)
    (hsub : ∀ x ∈ l₁, x ∈ l₂) : l₁.length ≤ l₂.length := by
  have h1 : l₁.toFinset.card = l₁.length := List.toFinset_card_of_nodup h
  have h2 : l₂.toFinset.card ≤ l₂.length := l₂.toFinset_card_le
  have hfin : l₁.toFinset ⊆ l₂.toFinset := by
    intro x hx
    rw [List.mem_toFinset] at hx ⊢
    exact hsub x hx
  have := Finset.card_le_card hfin
  omega

/-- A duplicate-free list covering at least as many elements as a
duplicate-free superset list covers it back. -/
theorem nodup_subset_full (l names : List String) (hl : l.Nodup)
    (hnames : names.Nodup) (hsub : ∀ x ∈ l, x ∈ names)
    (hlen : names.length ≤ l.length) : ∀ x ∈ names, x ∈ l := by
  have hfin : l.toFinset ⊆ names.toFinset := by
    intro x hx
    rw [List.mem_toFinset] at hx ⊢
    exact hsub x hx
  have hcardl : l.toFinset.card = l.length := List.toFinset_card_of_nodup hl
  have hcardn : names.toFinset.card = names.length :=
    List.toFinset_card_of_nodup hnames
  have : names.toFinset.card ≤ l.toFinset.card := by omega
  have heq := Finset.eq_of_subset_of_card_le hfin this
  intro x hx
  have : x ∈ names.toFinset := List.mem_toFinset.mpr hx
  rw [← heq] at this
  exact List.mem_toFinset.mp this

/-- Progress: with duplicate-free names, dependencies inside the workflow,
and a rank function decreasing along dependencies (acyclicity), a pass over
an incomplete state always collects at least one ready step. -/
theorem readyAgents_ne_nil (steps : List WorkflowStep) (rank : String → Nat)
    (hnodup : (stepNames steps).Nodup)
    (hdeps : ∀ s ∈ steps, ∀ d ∈ s.depends_on, d ∈ stepNames steps)
    (hrank : ∀ s ∈ steps, ∀ d ∈ s.depends_on, rank d < rank s.agent_name)
    (completed : List String)
    (hlt : completed.length < steps.length) :
    readyAgents steps completed ≠ [] := by
  have hlen : (stepNames steps).length = steps.length := by
    simp [stepNames]
  obtain ⟨a, ha, hac⟩ : ∃ a, a ∈ stepNames steps ∧ a ∉ completed := by
    by_contra hall
    push_neg at hall
    have := nodup_length_le (stepNames steps) completed hnodup hall
    omega
  have key : ∀ n a, rank a ≤ n → a ∈ stepNames steps → a ∉ completed →
      readyAgents steps completed ≠ [] := by
    intro n
    induction n with
    | zero =>
        intro a hr haN hacN
        obtain ⟨s, hs, hname⟩ : ∃ s, s ∈ steps ∧ s.agent_name = a := by
          simpa [stepNames, List.mem_map] using haN
        have hall : ∀ d ∈ s.depends_on, d ∈ completed := by
          intro d hd
          by_contra hdc
          have := hrank s hs d hd
          rw [hname] at this
          omega
        apply List.ne_nil_of_mem (a := a)
        rw [mem_readyAgents]
        refine ⟨s, hs, hname, hacN, ?_⟩
        intro d hd
        rw [← hname, depsOf_eq_of_nodup steps s hnodup hs] at hd
        exact hall d hd
    | succ n ih =>
        intro a hr haN hacN
        obtain ⟨s, hs, hname⟩ : ∃ s, s ∈ steps ∧ s.agent_name = a := by
          simpa [stepNames, List.mem_map] using haN
        by_cases hall : ∀ d ∈ s.depends_on, d ∈ completed
        · apply List.ne_nil_of_mem (a := a)
          rw [mem_readyAgents]
          refine ⟨s, hs, hname, hacN, ?_⟩
          intro d hd
          rw [← hname, depsOf_eq_of_nodup steps s hnodup hs] at hd
          exact hall d hd
        · push_neg at hall
          obtain ⟨d, hd, hdc⟩ := hall
          have hdN : d ∈ stepNames steps := hdeps s hs d hd
          have hdr : rank d < rank s.agent_name := hrank s hs d hd
          rw [hname] at hdr
          exact ih d (by omega) hdN hdc
  exact key (rank a) a (le_refl _) ha hac

/-- The generalized loop invariant of `get_execution_order` on an acyclic
workflow: starting from any duplicate-free completed set drawn from the
agent names, with enough fuel, the loop succeeds and appends levels that
(i) are globally duplicate-free, (ii) cover exactly the not-yet-completed
agent names, and (iii) schedule every agent only after all of its
dependencies are completed or in a strictly earlier appended level. -/
theorem execOrderAux_acyclic (steps : List WorkflowStep) (rank : String → Nat)
    (hnodup : (stepNames steps).Nodup)
    (hdeps : ∀ s ∈ steps, ∀ d ∈ s.depends_on, d ∈ stepNames steps)
    (hrank : ∀ s ∈ steps, ∀ d ∈ s.depends_on, rank d < rank s.agent_name) :
    ∀ fuel completed acc, completed.Nodup →
      (∀ x ∈ completed, x ∈ stepNames steps) →
      steps.length ≤ completed.length + fuel →
      ∃ rest,
        execOrderAux steps fuel completed acc = .ok (acc ++ rest) ∧
        rest.flatten.Nodup ∧
        (∀ a, a ∈ rest.flatten ↔ (a ∈ stepNames steps ∧ a ∉ completed)) ∧
        (∀ i (hi : i < rest.length), ∀ a ∈ rest.get ⟨i, hi⟩,
          ∀ d ∈ depsOf steps a, d ∈ completed ∨ d ∈ (rest.take i).flatten) := by
  intro fuel
  induction fuel with
  | zero =>
      intro completed acc hcn hcs hfuel
      have hle : steps.length ≤ completed.length := by omega
      refine ⟨[], ?_, ?_, ?_, ?_⟩
      · simp only [execOrderAux, if_pos hle, List.append_nil]
      · simp
      · intro a
        simp only [List.flatten_nil, List.not_mem_nil, false_iff, not_and,
          not_not]
        intro haN
        have hnames_len : (stepNames steps).length = steps.length := by
          simp [stepNames]
        exact nodup_subset_full completed (stepNames steps) hcn hnodup hcs
          (by omega) a haN
      · intro i hi
        simp at hi
  | succ fuel ih =>
      intro completed acc hcn hcs hfuel
      by_cases hle : steps.length ≤ completed.length
      · refine ⟨[], ?_, ?_, ?_, ?_⟩
        · simp only [execOrderAux, if_pos hle, List.append_nil]
        · simp
        · intro a
          simp only [List.flatten_nil, List.not_mem_nil, false_iff, not_and,
            not_not]
          intro haN
          have hnames_len : (stepNames steps).length = steps.length := by
            simp [stepNames]
          exact nodup_subset_full completed (stepNames steps) hcn hnodup hcs
            (by omega) a haN
        · intro i hi
          simp at hi
      · have hlt : completed.length < steps.length := by omega
        have hready := readyAgents_ne_nil steps rank hnodup hdeps hrank
          completed hlt
        have hreadyNodup := readyAgents_nodup steps completed hnodup
        have hreadyDedup : (readyAgents steps completed).dedup =
            readyAgents steps completed := hreadyNodup.dedup
        have hreadyNC : ∀ a ∈ readyAgents steps completed, a ∉ completed := by
          intro a ha
          obtain ⟨s, _, _, hnc, _⟩ := (mem_readyAgents steps completed a).mp ha
          exact hnc
        have hreadyLen : 1 ≤ (readyAgents steps completed).length := by
          cases hr : readyAgents steps completed with
          | nil => exact absurd hr hready
          | cons x xs => simp
        have hstep :
            execOrderAux steps (fuel + 1) completed acc =
              execOrderAux steps fuel
                (completed ++ (readyAgents steps completed).dedup)
                (acc ++ [readyAgents steps completed]) := by
          rw [execOrderAux]
          rw [if_neg hle]
          simp only [List.isEmpty_iff]
          rw [if_neg hready]
        have hcn' : (completed ++ (readyAgents steps completed).dedup).Nodup := by
          rw [hreadyDedup]
          refine List.Nodup.append hcn hreadyNodup ?_
          intro a hac har
          exact hreadyNC a har hac
        have hcs' : ∀ x ∈ completed ++ (readyAgents steps completed).dedup,
            x ∈ stepNames steps := by
          intro x hx
          rw [hreadyDedup] at hx
          rcases List.mem_append.mp hx with hx | hx
          · exact hcs x hx
          · exact readyAgents_subset steps completed x hx
        have hfuel' : steps.length ≤
            (completed ++ (readyAgents steps completed).dedup).length + fuel := by
          rw [hreadyDedup, List.length_append]
          omega
        obtain ⟨rest', hrun, hjn, hiff, hlev⟩ :=
          ih (completed ++ (readyAgents steps completed).dedup)
            (acc ++ [readyAgents steps completed]) hcn' hcs' hfuel'
        refine ⟨readyAgents steps completed :: rest', ?_, ?_, ?_, ?_⟩
        · rw [hstep, hrun]
          simp
        · simp only [List.flatten_cons]
          refine List.Nodup.append hreadyNodup hjn ?_
          intro a har haj
          have := (hiff a).mp haj
          rw [hreadyDedup] at this
          exact this.2 (List.mem_append.mpr (Or.inr har))
        · intro a
          simp only [List.flatten_cons, List.mem_append]
          constructor
          · rintro (ha | ha)
            · exact ⟨readyAgents_subset steps completed a ha, hreadyNC a ha⟩
            · have := (hiff a).mp ha
              rw [hreadyDedup] at this
              refine ⟨this.1, ?_⟩
              intro hac
              exact this.2 (List.mem_append.mpr (Or.inl hac))
          · rintro ⟨haN, hac⟩
            by_cases har : a ∈ readyAgents steps completed
            · exact Or.inl har
            · refine Or.inr ((hiff a).mpr ⟨haN, ?_⟩)
              rw [hreadyDedup]
              intro hmem
              rcases List.mem_append.mp hmem with h | h
              · exact hac h
              · exact har h
        · intro i hi a ha d hd
          cases i with
          | zero =>
              left
              obtain ⟨s, _, _, _, hdc⟩ :=
                (mem_readyAgents steps completed a).mp ha
              exact hdc d hd
          | succ i' =>
              simp only [List.length_cons, Nat.succ_lt_succ_iff] at hi
              have := hlev i' hi a ha d hd
              rcases this with h | h
              · rw [hreadyDedup] at h
                rcases List.mem_append.mp h with h | h
                · exact Or.inl h
                · refine Or.inr ?_
                  simp only [List.take_succ_cons, List.flatten_cons,
                    List.mem_append]
                  exact Or.inl h
              · refine Or.inr ?_
                simp only [List.take_succ_cons, List.flatten_cons,
                  List.mem_append]
                exact Or.inr h

/-- A member of the flattened take lies in some level with index below the
cut. -/
theorem mem_take_flatten (L : List (List String)) (i : Nat) (d : String)
    (h : d ∈ (L.take i).flatten) :
    ∃ j, ∃ hj : j < L.length, j < i ∧ d ∈ L.get ⟨j, hj⟩ := by
  obtain ⟨l, hl, hdl⟩ := List.mem_flatten.mp h
  obtain ⟨j, hjlen, hget⟩ := List.mem_iff_getElem.mp hl
  have hjlt : j < min i L.length := by
    simpa using hjlen
  have hjL : j < L.length := by omega
  have heq : (L.take i)[j] = L.get ⟨j, hjL⟩ := by
    rw [List.get_eq_getElem]
    exact List.getElem_take L
  rw [heq] at hget
  refine ⟨j, hjL, by omega, ?_⟩
  rw [hget]
  exact hdl

/-- In a duplicate-free flattening, an element determines its level. -/
theorem flatten_nodup_unique_level (L : List (List String))
    (hn : L.flatten.Nodup) (d : String) (j j' : Nat)
    (hj : j < L.length) (hj' : j' < L.length)
    (h1 : d ∈ L.get ⟨j, hj⟩) (h2 : d ∈ L.get ⟨j', hj'⟩) : j = j' := by
  by_contra hne
  have hpair := (List.nodup_flatten.mp hn).2
  have hpg := List.pairwise_iff_getElem.mp hpair
  rcases Nat.lt_or_ge j j' with h | h
  · have hdisj := hpg j j' hj hj' h
    rw [List.get_eq_getElem] at h1 h2
    exact hdisj h1 h2
  · have hlt : j' < j := by omega
    have hdisj := hpg j' j hj' hj hlt
    rw [List.get_eq_getElem] at h1 h2
    exact hdisj h2 h1

/-! ## C7: acyclic plans are well-leveled -/

/-- C7: for any step set with duplicate-free names, in-workflow
dependencies, and a rank function decreasing along dependency edges (an
acyclicity certificate), `get_execution_order` succeeds and the computed
levels place every declared agent name in exactly one level (the flattening
is duplicate-free and covers exactly the agent names), and every step's
level index is strictly greater than the level index of each of its
dependencies. -/
theorem acyclic_plan_well_leveled (steps : List WorkflowStep)
    (rank : String → Nat) (hnodup : (stepNames steps).Nodup)
    (hdeps : ∀ s ∈ steps, ∀ d ∈ s.depends_on, d ∈ stepNames steps)
    (hrank : ∀ s ∈ steps, ∀ d ∈ s.depends_on, rank d < rank s.agent_name) :
    ∃ levels, getExecutionOrder steps = .ok levels ∧
      levels.flatten.Nodup ∧
      (∀ a, a ∈ levels.flatten ↔ a ∈ stepNames steps) ∧
      (∀ s ∈ steps, ∀ d ∈ s.depends_on,
        ∀ i j, ∀ hi : i < levels.length, ∀ hj : j < levels.length,
          s.agent_name ∈ levels.get ⟨i, hi⟩ → d ∈ levels.get ⟨j, hj⟩ →
            j < i) := by
  obtain ⟨rest, hrun, hjn, hiff, hlev⟩ :=
    execOrderAux_acyclic steps rank hnodup hdeps hrank (steps.length + 1)
      [] [] (by simp) (by simp) (by omega)
  refine ⟨rest, ?_, hjn, ?_, ?_⟩
  · simpa [getExecutionOrder] using hrun
  · intro a
    simpa using hiff a
  · intro s hs d hd i j hi hj hsi hdj
    have hdep' : d ∈ depsOf steps s.agent_name := by
      rw [depsOf_eq_of_nodup steps s hnodup hs]
      exact hd
    have := hlev i hi s.agent_name hsi d hdep'
    rcases this with h | h
    · simp at h
    · obtain ⟨j', hj', hlt', hdj'⟩ := mem_take_flatten rest i d h
      have heq : j = j' :=
        flatten_nodup_unique_level rest hjn d j j' hj hj' hdj hdj'
      omega

/-- Witness for C7 at the diamond graph, with its explicit rank
certificate. -/
theorem acyclic_plan_well_leveled_witness :
    ∃ levels, getExecutionOrder diamondSteps = .ok levels ∧
      levels.flatten.Nodup ∧
      (∀ a, a ∈ levels.flatten ↔ a ∈ stepNames diamondSteps) ∧
      (∀ s ∈ diamondSteps, ∀ d ∈ s.depends_on,
        ∀ i j, ∀ hi : i < levels.length, ∀ hj : j < levels.length,
          s.agent_name ∈ levels.get ⟨i, hi⟩ → d ∈ levels.get ⟨j, hj⟩ →
            j < i) :=
  acyclic_plan_well_leveled diamondSteps diamondRank (by decide)
    (by decide) (by decide)

/-! ## C3: cycle reporting -/

/-- With duplicate-free names, a name determines its step. -/
theorem step_unique_of_nodup (steps : List WorkflowStep)
    (hnodup : (stepNames steps).Nodup) (s s' : WorkflowStep)
    (hs : s ∈ steps) (hs' : s' ∈ steps)
    (h : s.agent_name = s'.agent_name) : s = s' := by
  induction steps with
  | nil => cases hs
  | cons t ts ih =>
      simp only [stepNames, List.map_cons, List.nodup_cons, List.mem_map]
        at hnodup
      obtain ⟨hnmem, hnd⟩ := hnodup
      rcases List.mem_cons.mp hs with heq | hs <;>
        rcases List.mem_cons.mp hs' with heq' | hs'
      · rw [heq, heq']
      · exact absurd ⟨s', hs', by rw [← heq]; exact h.symm⟩ hnmem
      · exact absurd ⟨s, hs, by rw [← heq']; exact h⟩ hnmem
      · exact ih hnd hs hs'

/-- Membership in the remaining-agents report. -/
theorem mem_remainingAgents (steps : List WorkflowStep)
    (completed : List String) (a : String) :
    a ∈ remainingAgents steps completed ↔
      ∃ s, s ∈ steps ∧ s.agent_name = a ∧ a ∉ completed := by
  simp only [remainingAgents, List.mem_map, List.mem_filter,
    Bool.not_eq_true']
  constructor
  · rintro ⟨s, ⟨hs, hnc⟩, rfl⟩
    exact ⟨s, hs, rfl, (list_contains_false _ _).mp hnc⟩
  · rintro ⟨s, hs, rfl, hnc⟩
    exact ⟨s, ⟨hs, (list_contains_false _ _).mpr hnc⟩, rfl⟩

/-- The generalized loop invariant of `get_execution_order` on a cyclic
workflow: no member of the cycle set ever becomes ready, so the loop stalls
and raises the circular-dependency error, whose remaining-agents report
contains every member of the cycle set. -/
theorem execOrderAux_cyclic (steps : List WorkflowStep) (c : List String)
    (hnodup : (stepNames steps).Nodup) (hcyc : HasCycleSet steps c) :
    ∀ fuel completed acc, completed.Nodup →
      (∀ x ∈ completed, x ∈ stepNames steps) →
      (∀ a ∈ c, a ∉ completed) →
      steps.length ≤ completed.length + fuel →
      ∃ remaining,
        execOrderAux steps fuel completed acc =
          .error (circularMsg remaining) ∧
        ∀ a ∈ c, a ∈ remaining := by
  obtain ⟨hcne, hedge⟩ := hcyc
  have hcN : ∀ a ∈ c, a ∈ stepNames steps := by
    intro a ha
    obtain ⟨b, _, s, hs, hname, _⟩ := hedge a ha
    rw [← hname]
    exact List.mem_map.mpr ⟨s, hs, rfl⟩
  have hnames_len : (stepNames steps).length = steps.length := by
    simp [stepNames]
  intro fuel
  induction fuel with
  | zero =>
      intro completed acc hcn hcs hdisj hfuel
      obtain ⟨a₀, ha₀⟩ := List.exists_mem_of_ne_nil c hcne
      have h1 : (completed ++ [a₀]).Nodup := by
        refine List.Nodup.append hcn (List.nodup_singleton a₀) ?_
        intro x hx hx'
        rw [List.mem_singleton] at hx'
        subst hx'
        exact hdisj x ha₀ hx
      have h2 : ∀ x ∈ completed ++ [a₀], x ∈ stepNames steps := by
        intro x hx
        rcases List.mem_append.mp hx with hx | hx
        · exact hcs x hx
        · rw [List.mem_singleton] at hx
          subst hx
          exact hcN x ha₀
      have := nodup_length_le (completed ++ [a₀]) (stepNames steps) h1 h2
      simp only [List.length_append, List.length_singleton] at this
      omega
  | succ fuel ih =>
      intro completed acc hcn hcs hdisj hfuel
      have hlt : completed.length < steps.length := by
        obtain ⟨a₀, ha₀⟩ := List.exists_mem_of_ne_nil c hcne
        have h1 : (completed ++ [a₀]).Nodup := by
          refine List.Nodup.append hcn (List.nodup_singleton a₀) ?_
          intro x hx hx'
          rw [List.mem_singleton] at hx'
          subst hx'
          exact hdisj x ha₀ hx
        have h2 : ∀ x ∈ completed ++ [a₀], x ∈ stepNames steps := by
          intro x hx
          rcases List.mem_append.mp hx with hx | hx
          · exact hcs x hx
          · rw [List.mem_singleton] at hx
            subst hx
            exact hcN x ha₀
        have := nodup_length_le (completed ++ [a₀]) (stepNames steps) h1 h2
        simp only [List.length_append, List.length_singleton] at this
        omega
      have hle : ¬(steps.length ≤ completed.length) := by omega
      have hcready : ∀ a ∈ c, a ∉ readyAgents steps completed := by
        intro a ha har
        obtain ⟨s, hs, hname, _, hdc⟩ := (mem_readyAgents steps completed a).mp har
        obtain ⟨b, hbc, s', hs', hname', hbd⟩ := hedge a ha
        have hss : s = s' :=
          step_unique_of_nodup steps hnodup s s' hs hs'
            (by rw [hname, hname'])
        have hbdep : b ∈ depsOf steps a := by
          rw [← hname, depsOf_eq_of_nodup steps s hnodup hs, hss]
          exact hbd
        exact hdisj b hbc (hdc b hbdep)
      by_cases hready : readyAgents steps completed = []
      · refine ⟨remainingAgents steps completed, ?_, ?_⟩
        · rw [execOrderAux]
          rw [if_neg hle]
          simp only [List.isEmpty_iff]
          rw [if_pos hready]
        · intro a ha
          rw [mem_remainingAgents]
          obtain ⟨b, _, s, hs, hname, _⟩ := hedge a ha
          exact ⟨s, hs, hname, hdisj a ha⟩
      · have hstep :
            execOrderAux steps (fuel + 1) completed acc =
              execOrderAux steps fuel
                (completed ++ (readyAgents steps completed).dedup)
                (acc ++ [readyAgents steps completed]) := by
          rw [execOrderAux]
          rw [if_neg hle]
          simp only [List.isEmpty_iff]
          rw [if_neg hready]
        have hreadyNodup := readyAgents_nodup steps completed hnodup
        have hreadyDedup : (readyAgents steps completed).dedup =
            readyAgents steps completed := hreadyNodup.dedup
        have hreadyNC : ∀ a ∈ readyAgents steps completed, a ∉ completed := by
          intro a ha
          obtain ⟨s, _, _, hnc, _⟩ := (mem_readyAgents steps completed a).mp ha
          exact hnc
        have hreadyLen : 1 ≤ (readyAgents steps completed).length := by
          cases hr : readyAgents steps completed with
          | nil => exact absurd hr hready
          | cons x xs => simp
        have hcn' : (completed ++ (readyAgents steps completed).dedup).Nodup := by
          rw [hreadyDedup]
          refine List.Nodup.append hcn hreadyNodup ?_
          intro a hac har
          exact hreadyNC a har hac
        have hcs' : ∀ x ∈ completed ++ (readyAgents steps completed).dedup,
            x ∈ stepNames steps := by
          intro x hx
          rw [hreadyDedup] at hx
          rcases List.mem_append.mp hx with hx | hx
          · exact hcs x hx
          · exact readyAgents_subset steps completed x hx
        have hdisj' : ∀ a ∈ c,
            a ∉ completed ++ (readyAgents steps completed).dedup := by
          intro a ha hmem
          rw [hreadyDedup] at hmem
          rcases List.mem_append.mp hmem with h | h
          · exact hdisj a ha h
          · exact hcready a ha h
        have hfuel' : steps.length ≤
            (completed ++ (readyAgents steps completed).dedup).length + fuel := by
          rw [hreadyDedup, List.length_append]
          omega
        obtain ⟨remaining, hrun, hmem⟩ :=
          ih (completed ++ (readyAgents steps completed).dedup)
            (acc ++ [readyAgents steps completed]) hcn' hcs' hdisj' hfuel'
        exact ⟨remaining, by rw [hstep, hrun], hmem⟩

/-- C3 amended (plan side): handed any cyclic step set with duplicate-free
names, plan computation (`get_execution_order`) fails with the
circular-dependency error whose remaining-agents report names every agent
of the cycle set — in particular at least one agent on the cycle. -/
theorem cyclic_plan_reports_cycle_agents (steps : List WorkflowStep)
    (c : List String) (hnodup : (stepNames steps).Nodup)
    (hcyc : HasCycleSet steps c) :
    ∃ remaining,
      getExecutionOrder steps = .error (circularMsg remaining) ∧
        (∀ a ∈ c, a ∈ remaining) ∧ remaining ≠ [] := by
  obtain ⟨remaining, hrun, hmem⟩ :=
    execOrderAux_cyclic steps c hnodup hcyc (steps.length + 1) [] []
      (by simp) (by simp) (by simp) (by omega)
  refine ⟨remaining, by simpa [getExecutionOrder] using hrun, hmem, ?_⟩
  obtain ⟨a₀, ha₀⟩ := List.exists_mem_of_ne_nil c hcyc.1
  exact List.ne_nil_of_mem (hmem a₀ ha₀)

/-- Witness for the amended C3 at the two-step cycle A→B→A. -/
theorem cyclic_plan_reports_cycle_agents_witness :
    ∃ remaining,
      getExecutionOrder cycleSteps = .error (circularMsg remaining) ∧
        (∀ a ∈ ["A", "B"], a ∈ remaining) ∧ remaining ≠ [] :=
  cyclic_plan_reports_cycle_agents cycleSteps ["A", "B"] (by decide)
    ⟨by decide, by decide⟩

set_option maxRecDepth 4000 in
/-- C3 counterexample: registering the cyclic workflow A→B→A fails — so
plan computation on the registered workflow is never reached (the name
remains unknown to `get_workflow`) — and the registration error message is
the fixed string naming no agent: neither `A` nor `B` occurs in it. -/
theorem cycle_registration_error_names_no_agent :
    (registerWorkflow [] "w" cycleConfig).2 =
        some (registerFailMsg "w" "Circular dependency detected in workflow") ∧
      ¬("A".toList <:+:
        (registerFailMsg "w" "Circular dependency detected in workflow").toList) ∧
      ¬("B".toList <:+:
        (registerFailMsg "w" "Circular dependency detected in workflow").toList) ∧
      getWorkflow (registerWorkflow [] "w" cycleConfig).1 "w" =
        .error ("Workflow 'w' not found") := by
  exact ⟨by rfl, by decide, by decide, by rfl⟩

/-! ## C1 amended: append-only namespace under disjoint write keys -/

/-- Sequential execution splits over list append, stopping at the first
propagating exception. -/
theorem runLevel_append {V : Type} (workflow_name : String)
    (agents : AgentMap V) (condBranch : V → Option String)
    (steps : List WorkflowStep) (xs ys : List String) (st : RunState V) :
    runLevel workflow_name agents condBranch steps (xs ++ ys) st =
      match runLevel workflow_name agents condBranch steps xs st with
      | (st', none) => runLevel workflow_name agents condBranch steps ys st'
      | (st', some e) => (st', some e) := by
  induction xs generalizing st with
  | nil => simp [runLevel]
  | cons a rest ih =>
      simp only [List.cons_append, runLevel]
      cases hstep : execStep workflow_name agents condBranch steps st a with
      | mk st' opt =>
          cases opt with
          | none => exact ih st'
          | some e => rfl

/-- Level-by-level execution equals sequential execution of the flattened
plan: a level is a logical grouping, not a semantic boundary, in the
single-threaded reference behavior. -/
theorem runLevels_eq_flatten {V : Type} (workflow_name : String)
    (agents : AgentMap V) (condBranch : V → Option String)
    (steps : List WorkflowStep) (levels : List (List String))
    (st : RunState V) :
    runLevels workflow_name agents condBranch steps levels st =
      runLevel workflow_name agents condBranch steps levels.flatten st := by
  induction levels generalizing st with
  | nil => simp [runLevels, runLevel]
  | cons level rest ih =>
      simp only [List.flatten_cons, runLevels,
        runLevel_append workflow_name agents condBranch steps level
          rest.flatten st]
      cases hstep : runLevel workflow_name agents condBranch steps level st with
      | mk st' opt =>
          cases opt with
          | none => exact ih st'
          | some e => rfl

/-- Folded output writes leave other keys untouched. -/
theorem foldl_dictSet_other {V : Type} (ks : List String) (r : V)
    (k : String) (hk : k ∉ ks) :
    ∀ o : List (String × V),
      dictGet? (ks.foldl (fun o' k' => dictSet o' k' r) o) k =
        dictGet? o k := by
  induction ks with
  | nil => intro o; rfl
  | cons k' rest ih =>
      intro o
      have hk' : k ≠ k' := fun h => hk (h ▸ List.mem_cons_self k' rest)
      have hrest : k ∉ rest := fun h => hk (List.mem_cons_of_mem k' h)
      simp only [List.foldl_cons]
      rw [ih hrest, dictGet?_dictSet_other o k' k r hk']

/-- A step's output write-back leaves keys outside its write-key set
untouched. -/
theorem writeOutputs_other {V : Type} (outputs : List (String × V))
    (step : WorkflowStep) (result : V) (k : String)
    (hk : k ∉ stepWriteKeys step) :
    dictGet? (writeOutputs outputs step result) k = dictGet? outputs k := by
  unfold writeOutputs stepWriteKeys at *
  by_cases hempty : step.outputs.isEmpty
  · rw [if_pos hempty] at hk ⊢
    have : k ≠ pyLower step.agent_name ++ "_output" := by
      intro h
      exact hk (h ▸ List.mem_singleton.mpr rfl)
    exact dictGet?_dictSet_other outputs _ k result this
  · rw [if_neg hempty] at hk ⊢
    exact foldl_dictSet_other step.outputs result k hk outputs

/-- One agent execution leaves namespace keys outside the agent's write-key
set untouched, whatever its outcome. -/
theorem execStep_other {V : Type} (workflow_name : String)
    (agents : AgentMap V) (condBranch : V → Option String)
    (steps : List WorkflowStep) (st : RunState V) (a : String) (k : String)
    (hk : k ∉ writeKeysOf steps a) :
    dictGet? ((execStep workflow_name agents condBranch steps st a).1).outputs
        k = dictGet? st.outputs k := by
  cases hfind : steps.find? (fun s => s.agent_name = a) with
  | none => simp [execStep, hfind]
  | some step =>
      simp only [writeKeysOf, hfind] at hk
      cases hagent : dictGet? agents a with
      | none => simp [execStep, hfind, hagent]
      | some behavior =>
          cases hrun : behavior (gatherInputs st.outputs step.inputs) with
          | ok result =>
              have hw := writeOutputs_other st.outputs step result k hk
              by_cases hA : a = "Analyzer"
              · subst hA
                cases hcb : condBranch result with
                | none => simp [execStep, hfind, hagent, hrun, hcb, hw]
                | some label =>
                    simp [execStep, hfind, hagent, hrun, hcb, hw]
              · simp [execStep, hfind, hagent, hrun, hA, hw]
          | error e =>
              by_cases hcrit : isCriticalAgent a
              · simp [execStep, hfind, hagent, hrun, hcrit]
              · simp [execStep, hfind, hagent, hrun, hcrit]

/-- A key present after one agent execution was present before or lies in
the agent's write-key set. -/
theorem execStep_domain {V : Type} (workflow_name : String)
    (agents : AgentMap V) (condBranch : V → Option String)
    (steps : List WorkflowStep) (st : RunState V) (a : String) (k : String)
    (hpres :
      dictGet?
        ((execStep workflow_name agents condBranch steps st a).1).outputs k ≠
        none) :
    dictGet? st.outputs k ≠ none ∨ k ∈ writeKeysOf steps a := by
  by_cases hk : k ∈ writeKeysOf steps a
  · exact Or.inr hk
  · left
    rw [← execStep_other workflow_name agents condBranch steps st a k hk]
    exact hpres

/-- Sequential execution preserves any key outside every executed agent's
write-key set, with its value. -/
theorem runLevel_other {V : Type} (workflow_name : String)
    (agents : AgentMap V) (condBranch : V → Option String)
    (steps : List WorkflowStep) (seq : List String)
    (hk : ∀ a ∈ seq, (k : String) ∉ writeKeysOf steps a) :
    ∀ st : RunState V,
      dictGet?
        ((runLevel workflow_name agents condBranch steps seq st).1).outputs
        k = dictGet? st.outputs k := by
  induction seq with
  | nil => intro st; rfl
  | cons a rest ih =>
      intro st
      have ha : k ∉ writeKeysOf steps a := hk a (List.mem_cons_self a rest)
      have hrest : ∀ b ∈ rest, k ∉ writeKeysOf steps b := fun b hb =>
        hk b (List.mem_cons_of_mem a hb)
      simp only [runLevel]
      cases hstep : execStep workflow_name agents condBranch steps st a with
      | mk st' opt =>
          have hother :
              dictGet? st'.outputs k = dictGet? st.outputs k := by
            have := execStep_other workflow_name agents condBranch steps st
              a k ha
            rw [hstep] at this
            exact this
          cases opt with
          | none => rw [ih hrest st', hother]
          | some e => exact hother

/-- A key present after a sequential execution was present initially or was
written by one of the executed agents. -/
theorem runLevel_domain {V : Type} (workflow_name : String)
    (agents : AgentMap V) (condBranch : V → Option String)
    (steps : List WorkflowStep) (seq : List String) (k : String) :
    ∀ st : RunState V,
      dictGet?
        ((runLevel workflow_name agents condBranch steps seq st).1).outputs
        k ≠ none →
      dictGet? st.outputs k ≠ none ∨ ∃ a ∈ seq, k ∈ writeKeysOf steps a := by
  induction seq with
  | nil => intro st h; exact Or.inl h
  | cons a rest ih =>
      intro st h
      simp only [runLevel] at h
      cases hstep : execStep workflow_name agents condBranch steps st a with
      | mk st' opt =>
          rw [hstep] at h
          have hup : dictGet? st'.outputs k ≠ none →
              dictGet? st.outputs k ≠ none ∨ k ∈ writeKeysOf steps a := by
            intro hne
            have := execStep_domain workflow_name agents condBranch steps st
              a k (by rw [hstep]; exact hne)
            exact this
          cases opt with
          | none =>
              rcases ih st' h with h' | ⟨b, hb, hbk⟩
              · rcases hup h' with h'' | h''
                · exact Or.inl h''
                · exact Or.inr ⟨a, List.mem_cons_self a rest, h''⟩
              · exact Or.inr ⟨b, List.mem_cons_of_mem a hb, hbk⟩
          | some e =>
              rcases hup h with h'' | h''
              · exact Or.inl h''
              · exact Or.inr ⟨a, List.mem_cons_self a rest, h''⟩

/-- The terminal state carries the run's namespace unchanged. -/
theorem terminalState_outputs {V : Type} (workflow_name : String)
    (agents : AgentMap V) (condBranch : V → Option String)
    (steps : List WorkflowStep) (levels : List (List String))
    (initial_inputs : List (String × V)) :
    (terminalState workflow_name agents condBranch steps levels
        initial_inputs).1.outputs =
      (runLevels workflow_name agents condBranch steps levels
        (initialRunState initial_inputs)).1.outputs := by
  unfold terminalState
  cases runLevels workflow_name agents condBranch steps levels
      (initialRunState initial_inputs) with
  | mk st opt => cases opt <;> rfl

/-- C1 amended: when the write-key sets of the distinct agents of the plan
are pairwise disjoint and disjoint from the initial input keys, and no
agent occurs twice in the plan (both hold for every validated workflow with
distinct declared output keys), the namespace is append-only during
`execute_workflow`: a key present at any point of the run — seeded from the
initial inputs or written by a completed step — keeps that value in the
terminal state. -/
theorem namespace_append_only {V : Type} (workflow_name : String)
    (agents : AgentMap V) (condBranch : V → Option String)
    (steps : List WorkflowStep) (levels : List (List String))
    (initial_inputs : List (String × V))
    (hnodup : levels.flatten.Nodup)
    (hpair : ∀ a ∈ levels.flatten, ∀ b ∈ levels.flatten, a ≠ b →
      ∀ kk ∈ writeKeysOf steps a, kk ∉ writeKeysOf steps b)
    (hinit : ∀ b ∈ levels.flatten, ∀ kk ∈ writeKeysOf steps b,
      dictGet? initial_inputs kk = none)
    (pre post : List String) (hsplit : levels.flatten = pre ++ post)
    (k : String) (v : V)
    (hpresent :
      dictGet?
        ((runLevel workflow_name agents condBranch steps pre
          (initialRunState initial_inputs)).1).outputs k = some v) :
    dictGet?
      ((terminalState workflow_name agents condBranch steps levels
        initial_inputs).1).outputs k = some v := by
  rw [terminalState_outputs,
    runLevels_eq_flatten workflow_name agents condBranch steps levels
      (initialRunState initial_inputs),
    hsplit,
    runLevel_append workflow_name agents condBranch steps pre post
      (initialRunState initial_inputs)]
  cases hpre : runLevel workflow_name agents condBranch steps pre
      (initialRunState initial_inputs) with
  | mk st1 opt =>
      rw [hpre] at hpresent
      cases opt with
      | some e => exact hpresent
      | none =>
          have hkeep : ∀ b ∈ post, k ∉ writeKeysOf steps b := by
            have hne : dictGet? st1.outputs k ≠ none := by
              rw [hpresent]
              exact Option.some_ne_none v
            have hdom := runLevel_domain workflow_name agents condBranch
              steps pre k (initialRunState initial_inputs)
              (by rw [hpre]; exact hne)
            rcases hdom with hin | ⟨a, hapre, hak⟩
            · intro b hb hbk
              have hbflat : b ∈ levels.flatten := by
                rw [hsplit]
                exact List.mem_append.mpr (Or.inr hb)
              have := hinit b hbflat k hbk
              simp only [initialRunState] at hin
              exact hin this
            · intro b hb hbk
              have haflat : a ∈ levels.flatten := by
                rw [hsplit]
                exact List.mem_append.mpr (Or.inl hapre)
              have hbflat : b ∈ levels.flatten := by
                rw [hsplit]
                exact List.mem_append.mpr (Or.inr hb)
              have hab : a ≠ b := by
                intro heq
                subst heq
                rw [hsplit] at hnodup
                have hdisj := List.disjoint_of_nodup_append hnodup
                exact hdisj hapre hb
              exact hpair a haflat b hbflat hab k hak hbk
          rw [runLevel_other workflow_name agents condBranch steps post
            hkeep st1]
          exact hpresent

/-- Witness for the amended C1: two chained steps writing the disjoint keys
`x` and `y` over a seeded key `i`; the value the first step wrote under `x`
survives to the terminal state. -/
theorem namespace_append_only_witness :
    dictGet?
        ((runLevel "w" appendOnlyAgents (fun _ => none) appendOnlySteps
          ["Supervisor"] (initialRunState [("i", 5)])).1).outputs "x" =
      some 1 ∧
    dictGet?
      ((terminalState "w" appendOnlyAgents (fun _ => none) appendOnlySteps
        [["Supervisor"], ["Notifier"]] [("i", 5)]).1).outputs "x" = some 1 :=
  ⟨by rfl,
    namespace_append_only "w" appendOnlyAgents (fun _ => none)
      appendOnlySteps [["Supervisor"], ["Notifier"]] [("i", 5)]
      (by decide) (by decide) (by decide)
      ["Supervisor"] ["Notifier"] (by decide) "x" 1 (by rfl)⟩

end EntraFlow
